import Mathlib

/-!
Verification of the stateful TCP middlebox flow-processing core
(Click/fastclick middlebox elements).

The development shallowly embeds the C++ sources:
  * `src/elements/middlebox/tcpin.cc`      (TCPIn element)
  * `src/include/click/tcpelement.hh`      (TCP header accessors)
  * `src/include/click/flowbuffer.hh`      (flow buffer and its iterators)

Components of the repository whose implementation files are not available
(`bytestreammaintainer.cc`, `modificationlist.cc`, `flowbuffer.cc`,
`tcpout.cc`) are modelled from the specification; each such definition
carries a doc comment starting with `Modelled from the spec:`.

Machine integers are modelled as `Nat` with explicit reduction modulo
`2 ^ 32` where the C code relies on `uint32_t` wrap-around.
-/

/-! ## TCP flag constants (clicknet/tcp.h) -/

/-- TH_FIN flag bit. -/
def TH_FIN : Nat := 1

/-- TH_SYN flag bit. -/
def TH_SYN : Nat := 2

/-- TH_RST flag bit. -/
def TH_RST : Nat := 4

/-- TH_ACK flag bit. -/
def TH_ACK : Nat := 16

/-- Modulus of the 32-bit sequence-number space. -/
def u32 : Nat := 2 ^ 32

/-- SEQ_LT from clicknet/tcp.h: `(int)(x - y) < 0` on `uint32_t` values,
i.e. the 32-bit difference interpreted as a signed integer is negative. -/
def seqLt (x y : Nat) : Bool := decide (2 ^ 31 ≤ (x + u32 - y) % u32)

/-! ## Packet model

A TCP/IP packet as seen by the middlebox elements: addresses, ports,
sequence/ack numbers, flag byte, payload length (derived from the IP and
TCP headers in `TCPElement::getPayloadLength`), the byte offset of the
payload within the packet (`TCPElement::getPayloadOffset`), the content
offset annotation, the dirty annotation, and the raw bytes. -/

structure Pkt where
  saddr : Nat
  daddr : Nat
  sport : Nat
  dport : Nat
  seq : Nat
  ack : Nat
  flags : Nat
  payloadLen : Nat
  payloadOffset : Nat
  contentOffset : Nat
  dirty : Bool
  data : List Nat
deriving DecidableEq

/-! ## TCPElement accessors (src/include/click/tcpelement.hh) -/

/-- TCPElement::checkFlag: test a bit of the TCP flag byte. -/
def checkFlag (p : Pkt) (flag : Nat) : Bool := decide (p.flags &&& flag ≠ 0)

/-- TCPElement::isSyn. -/
def isSyn (p : Pkt) : Bool := checkFlag p TH_SYN

/-- TCPElement::isFin. -/
def isFin (p : Pkt) : Bool := checkFlag p TH_FIN

/-- TCPElement::isRst. -/
def isRst (p : Pkt) : Bool := checkFlag p TH_RST

/-- TCPElement::isAck. -/
def isAck (p : Pkt) : Bool := checkFlag p TH_ACK

/-- TCPElement::getPayloadLength (field of the packet model, derived in C
from the IP total length and the header sizes). -/
def getPayloadLength (p : Pkt) : Nat := p.payloadLen

/-- TCPElement::isJustAnAck: no payload and the flag byte is exactly TH_ACK. -/
def isJustAnAck (p : Pkt) : Bool :=
  if getPayloadLength p > 0 then false
  else decide (p.flags = TH_ACK)

/-- TCPElement::getNextSequenceNumber: sequence number following the packet,
`seq + payloadLength`, plus one for FIN and SYN packets, in `uint32_t`
arithmetic. -/
def getNextSequenceNumber (p : Pkt) : Nat :=
  let nextSeq := (p.seq + getPayloadLength p) % u32
  if isFin p || isSyn p then (nextSeq + 1) % u32 else nextSeq

/-! ## ByteStream maintainer

`Modelled from the spec:` the implementation file `bytestreammaintainer.cc`
is not part of the available sources; the structure and the operations
`mapSeq`, `mapAck` and `prune` follow §4.1 of the specification: a map from
original sequence numbers to signed deltas with
`mapSeq(s) = s + prefix_sum(deltas with key ≤ s)`, `mapAck` its inverse on
the edited stream, and `prune(ack)` dropping entries below the
acknowledged point minus a safety window. -/

structure ByteStreamMaintainer where
  mods : List (Nat × Int)
  lastAckSent : Nat
  lastAckReceived : Nat
  pruneWindow : Nat
  ipSrc : Nat
  ipDst : Nat
  portSrc : Nat
  portDst : Nat
deriving DecidableEq

/-- An empty maintainer, as produced by `initialize(&rbtManager)`. -/
def ByteStreamMaintainer.init : ByteStreamMaintainer :=
  ⟨[], 0, 0, 0, 0, 0, 0, 0⟩

/-- Modelled from the spec: `mapSeq(s)` returns `s` plus the sum of all
deltas with key `≤ s` (exact integer arithmetic). -/
def mapSeqZ (m : List (Nat × Int)) (s : Nat) : Int :=
  (s : Int) + ((m.filter (fun kv => decide (kv.1 ≤ s))).map Prod.snd).sum

/-- Keys of the modification map whose mapped value is at most `a`;
candidates for the inverse lookup of `mapAck`. -/
def ackKeys (m : List (Nat × Int)) (a : Int) : List Nat :=
  (m.map Prod.fst).filter (fun k => decide (mapSeqZ m k ≤ a))

/-- Modelled from the spec: `mapAck(a)` finds the largest edited key `k`
such that `mapSeq(k) ≤ a` and returns `k + (a - mapSeq(k))`; when no edited
key qualifies the translation is the identity. Exact integer arithmetic. -/
def mapAckZ (m : List (Nat × Int)) (a : Int) : Int :=
  match (ackKeys m a).max? with
  | none => a
  | some k => (k : Int) + (a - mapSeqZ m k)

/-- `mapSeq` reduced to the 32-bit sequence space used on the wire. -/
def mapSeqU (m : ByteStreamMaintainer) (s : Nat) : Nat :=
  (mapSeqZ m.mods (s % u32) % (u32 : Int)).toNat

/-- `mapAck` reduced to the 32-bit sequence space used on the wire. -/
def mapAckU (m : ByteStreamMaintainer) (a : Nat) : Nat :=
  (mapAckZ m.mods (a % u32) % (u32 : Int)).toNat

/-- Modelled from the spec: `prune(ack)` drops the entries whose original
key is strictly below `ack` minus the pruning safety window. -/
def ByteStreamMaintainer.prune (m : ByteStreamMaintainer) (ack : Nat) :
    ByteStreamMaintainer :=
  { m with mods :=
      m.mods.filter (fun kv => decide ((ack : Int) - m.pruneWindow ≤ kv.1)) }

/-! ## Closing states and the shared per-connection record -/

/-- Per-direction closing state (TCPClosingState). -/
inductive ClosingState where
  | OPEN
  | BEING_CLOSED_GRACEFUL
  | CLOSED_GRACEFUL
  | BEING_CLOSED_UNGRACEFUL
  | CLOSED_UNGRACEFUL
deriving DecidableEq

/-- The `struct fcb_tcp_common` record shared by the two directions of a
connection: one byte-stream maintainer and one closing state per
direction. The retransmission-timing component is outside the claims and
is not modelled. A direction is a `Bool` (flow direction 0 or 1); the
opposite direction is its negation (`getOppositeFlowDirection`). -/
structure TcpCommon where
  m0 : ByteStreamMaintainer
  m1 : ByteStreamMaintainer
  cs0 : ClosingState
  cs1 : ClosingState
deriving DecidableEq

/-- The maintainer of a direction (`maintainers[d]`). -/
def TcpCommon.mnt (c : TcpCommon) (d : Bool) : ByteStreamMaintainer :=
  if d then c.m1 else c.m0

/-- Update the maintainer of a direction. -/
def TcpCommon.updMnt (c : TcpCommon) (d : Bool)
    (f : ByteStreamMaintainer → ByteStreamMaintainer) : TcpCommon :=
  if d then { c with m1 := f c.m1 } else { c with m0 := f c.m0 }

/-- The closing state of a direction (`closingStates[d]`). -/
def TcpCommon.closing (c : TcpCommon) (d : Bool) : ClosingState :=
  if d then c.cs1 else c.cs0

/-- Update the closing state of a direction. -/
def TcpCommon.setClosing (c : TcpCommon) (d : Bool) (s : ClosingState) :
    TcpCommon :=
  if d then { c with cs1 := s } else { c with cs0 := s }

/-- A fresh `fcb_tcp_common`, as built by the placement-new constructor on
the initiator path: empty maintainers, both directions OPEN. -/
def TcpCommon.fresh : TcpCommon :=
  ⟨ByteStreamMaintainer.init, ByteStreamMaintainer.init,
   ClosingState.OPEN, ClosingState.OPEN⟩

/-! ## Flow identifiers and the shared table -/

/-- IPFlowID: the 4-tuple (source address, source port, destination
address, destination port) in constructor order. -/
structure FlowID where
  ipSrc : Nat
  portSrc : Nat
  ipDst : Nat
  portDst : Nat
deriving DecidableEq

/-- TCPIn::getTCPCommon: look the flow id up in the shared
`tableFcbTcpCommon`; NULL when absent. The table is modelled as a partial
map. -/
def getTCPCommon (table : FlowID → Option TcpCommon) (flowID : FlowID) :
    Option TcpCommon :=
  table flowID

/-! ## ACK crafting (TCPIn::ackPacket) -/

/-- An ACK handed to `TCPOut::sendAck`: addresses, ports and the seq/ack
pair computed by `TCPIn::ackPacket`. -/
structure SentAck where
  saddr : Nat
  daddr : Nat
  sport : Nat
  dport : Nat
  seq : Nat
  ack : Nat
deriving DecidableEq

/-- TCPIn::ackPacket (tcpin.cc lines 343-366): swap the source and the
destination; take the sequence number from the packet's ACK number, mapped
back through the opposite maintainer's `mapSeq` when `ackMapped` holds;
acknowledge the packet's sequence number plus its payload length, plus one
for FIN and SYN packets. `opp` is `maintainers[getOppositeFlowDirection()]`. -/
def ackPacket (opp : ByteStreamMaintainer) (p : Pkt) (ackMapped : Bool) :
    SentAck :=
  let saddr := p.daddr
  let daddr := p.saddr
  let sport := p.dport
  let dport := p.sport
  let seq := if ackMapped then mapSeqU opp p.ack else p.ack
  let ack := (p.seq + getPayloadLength p) % u32
  let ack := if isFin p || isSyn p then (ack + 1) % u32 else ack
  ⟨saddr, daddr, sport, dport, seq, ack⟩

/-! ## Connection closing (TCPIn::closeConnection) -/

/-- A closing packet handed to `TCPOut::sendClosingPacket`. The flag byte
is `Modelled from the spec:` `tcpout.cc` is not part of the available
sources; §4.5 says a FIN is synthesized for a graceful close and a RST for
an ungraceful one. -/
structure ClosingPkt where
  saddr : Nat
  daddr : Nat
  sport : Nat
  dport : Nat
  seq : Nat
  ack : Nat
  flag : Nat
deriving DecidableEq

/-- TCPIn::closeConnection (tcpin.cc lines 205-258). The FIN (graceful) or
RST (ungraceful) bit is first OR-ed into the packet's flag byte; this
direction's closing state becomes BEING_CLOSED_*; if `bothSides`, the
opposite direction becomes CLOSED_* and a closing packet is synthesized
from the (flag-updated) packet, with its ACK number un-mapped through the
opposite maintainer's `mapSeq`. Returns the updated record, the updated
packet and the closing packets sent. -/
def closeConnection (dir : Bool) (c : TcpCommon) (p : Pkt)
    (graceful bothSides : Bool) : TcpCommon × Pkt × List ClosingPkt :=
  let newFlag := if graceful then TH_FIN else TH_RST
  let p := { p with flags := p.flags ||| newFlag }
  let newStateSelf :=
    if graceful then ClosingState.BEING_CLOSED_GRACEFUL
    else ClosingState.BEING_CLOSED_UNGRACEFUL
  let newStateOther :=
    if graceful then ClosingState.CLOSED_GRACEFUL
    else ClosingState.CLOSED_UNGRACEFUL
  let c := c.setClosing dir newStateSelf
  if bothSides then
    let c := c.setClosing (!dir) newStateOther
    let saddr := p.daddr
    let daddr := p.saddr
    let sport := p.dport
    let dport := p.sport
    let seq := mapSeqU (c.mnt (!dir)) p.ack
    let ack := (p.seq + getPayloadLength p) % u32
    let ack := if isFin p || isSyn p then (ack + 1) % u32 else ack
    (c, p, [⟨saddr, daddr, sport, dport, seq, ack, newFlag⟩])
  else
    (c, p, [])

/-! ## Per-packet processing (TCPIn::processPacket) -/

/-- Outcome of TCPIn::assignTCPCommon (tcpin.cc lines 401-457). `notSyn`
is the `return false` branch for a packet without the SYN flag. On a
SYN+ACK the responder looks the initiator's record up via the reversed
4-tuple and then, with no check, initializes a maintainer through the
returned pointer: when the lookup misses, the C code dereferences NULL,
rendered here as `nullDeref`. On a plain SYN a fresh record is allocated
and inserted into the shared table (the insertion is reported as the
optional pair). -/
inductive AssignResult where
  | notSyn
  | nullDeref
  | assigned (c : TcpCommon) (tableInsert : Option (FlowID × TcpCommon))
deriving DecidableEq

/-- TCPIn::assignTCPCommon. `dir` is this element's flow direction and
`table` the return element's shared `tableFcbTcpCommon` (the own-direction
table for the insert is reported in the result). After the record is
obtained, the maintainer of this direction is initialized and the
direction's 4-tuple is recorded (note the source stores the packet's
destination port in `portSrc` and its source port in `portDst`,
tcpin.cc lines 453-454). -/
def assignTCPCommon (dir : Bool) (table : FlowID → Option TcpCommon)
    (p : Pkt) : AssignResult :=
  if p.flags &&& TH_SYN = 0 then .notSyn
  else if p.flags &&& TH_ACK ≠ 0 then
    match getTCPCommon table ⟨p.daddr, p.dport, p.saddr, p.sport⟩ with
    | none => .nullDeref
    | some c =>
      let c := c.updMnt dir (fun _ => ByteStreamMaintainer.init)
      let c := c.updMnt dir (fun m =>
        { m with ipSrc := p.saddr, ipDst := p.daddr,
                 portSrc := p.dport, portDst := p.sport })
      .assigned c none
  else
    let flowID : FlowID := ⟨p.saddr, p.sport, p.daddr, p.dport⟩
    let c := TcpCommon.fresh
    let c := c.updMnt dir (fun m =>
      { m with ipSrc := p.saddr, ipDst := p.daddr,
               portSrc := p.dport, portDst := p.sport })
    .assigned c (some (flowID, c))

/-- TCPIn::checkConnectionClosed (tcpin.cc lines 378-394): when this
direction's closing state is not OPEN the packet is to be discarded
(`false`); in the two graceful states a FIN, SYN or payload-carrying
packet is first acknowledged with `ackMapped = false`. -/
def checkConnectionClosed (dir : Bool) (c : TcpCommon) (p : Pkt) :
    Bool × List SentAck :=
  let closingState := c.closing dir
  if closingState ≠ ClosingState.OPEN then
    if (closingState = ClosingState.BEING_CLOSED_GRACEFUL ∨
        closingState = ClosingState.CLOSED_GRACEFUL) then
      if isFin p || isSyn p || getPayloadLength p > 0 then
        (false, [ackPacket (c.mnt (!dir)) p false])
      else (false, [])
    else (false, [])
  else (true, [])

/-- Result of one TCPIn::processPacket call: `crash` renders the undefined
behaviour of a NULL-pointer dereference, `drop` the `p->kill(); return
NULL` paths, `forward` the `return packet` path. -/
inductive PPOut where
  | crash
  | drop
  | forward (p : Pkt)
deriving DecidableEq

/-- Observable effects of one TCPIn::processPacket call: the outcome, the
ACKs handed to `TCPOut::sendAck`, the resulting `fcb->tcp_common` and the
insertion performed on the shared flow-id table, if any. -/
structure PPResult where
  out : PPOut
  sentAcks : List SentAck
  common : Option TcpCommon
  tableInsert : Option (FlowID × TcpCommon)
deriving DecidableEq

/-- The tail of TCPIn::processPacket (tcpin.cc lines 115-192), shared by
the fresh-assignment and the established paths: closing check, uniqueify
and content-offset annotation, lost-ACK detection, ACK remapping through
the opposite maintainer, redundant-ACK drop, ACK rewrite with the dirty
annotation. -/
def processAfterAssign (dir : Bool) (c : TcpCommon) (p : Pkt)
    (ins : Option (FlowID × TcpCommon)) : PPResult :=
  match checkConnectionClosed dir c p with
  | (false, acks) => ⟨.drop, acks, some c, ins⟩
  | (true, _) =>
    let packet := { p with contentOffset := p.payloadOffset }
    let lastAckSentOtherSide := (c.mnt (!dir)).lastAckSent
    if !isSyn packet && seqLt packet.seq lastAckSentOtherSide then
      ⟨.drop, [ackPacket (c.mnt (!dir)) packet false], some c, ins⟩
    else if isAck packet then
      let ackNumber := packet.ack
      let newAckNumber := mapAckU (c.mnt (!dir)) ackNumber
      let c := c.updMnt dir (fun m => { m with lastAckReceived := ackNumber })
      let c := c.updMnt (!dir) (fun m => m.prune ackNumber)
      if isJustAnAck packet &&
          seqLt newAckNumber (c.mnt dir).lastAckSent then
        ⟨.drop, [], some c, ins⟩
      else if ackNumber ≠ newAckNumber then
        ⟨.forward { packet with ack := newAckNumber, dirty := true },
         [], some c, ins⟩
      else
        ⟨.forward packet, [], some c, ins⟩
    else
      ⟨.forward packet, [], some c, ins⟩

/-- TCPIn::processPacket (tcpin.cc lines 78-193). `table` is the shared
flow-id table consulted by `assignTCPCommon` on the SYN+ACK path;
`common` is the incoming `fcb->tcp_common`. A packet with no record and
no SYN flag is dropped; a SYN on an established connection is dropped;
otherwise processing continues in `processAfterAssign`. -/
def processPacket (dir : Bool) (table : FlowID → Option TcpCommon)
    (common : Option TcpCommon) (p : Pkt) : PPResult :=
  match common with
  | none =>
    match assignTCPCommon dir table p with
    | .notSyn => ⟨.drop, [], none, none⟩
    | .nullDeref => ⟨.crash, [], none, none⟩
    | .assigned c ins => processAfterAssign dir c p ins
  | some c =>
    if isSyn p then ⟨.drop, [], some c, none⟩
    else processAfterAssign dir c p none

/-! ## Byte-editing hooks (TCPIn::removeBytes / TCPIn::insertBytes) -/

/-- A hook call forwarded down the element stack (`StackElement::removeBytes`
and `StackElement::insertBytes`), with the arguments it is given. -/
inductive StackCall where
  | removeCall (position length : Nat)
  | insertCall (position length : Nat)
deriving DecidableEq

/-- Modelled from the spec: `modificationlist.cc` is not part of the
available sources; `addModification` records the `(sequence, signed
length)` pair describing one edit. The ordering/coalescing discipline of
§4.2 is not needed by any claim and is not modelled. -/
def addModification (l : List (Nat × Int)) (seqNumber : Nat) (len : Int) :
    List (Nat × Int) :=
  l ++ [(seqNumber, len)]

/-- Key recorded for an edit at absolute byte offset `pos`:
`seqNumber + position - tcpOffset` in `uint32_t` arithmetic
(tcpin.cc lines 303 and 322). -/
def modKey (p : Pkt) (pos : Nat) : Nat :=
  (p.seq + pos + u32 - p.payloadOffset) % u32

/-- TCPIn::removeBytes (tcpin.cc lines 293-313): translate the
payload-relative `position` to an absolute offset by adding the content
offset, record the negative edit in the packet's modification list, move
the tail of the packet down over the removed range, shrink the packet,
and finally continue in `StackElement::removeBytes` with the absolute
position. Returns the updated modification list, the updated packet, and
the stack calls forwarded. -/
def removeBytes (ml : List (Nat × Int)) (p : Pkt)
    (position length : Nat) : List (Nat × Int) × Pkt × List StackCall :=
  let position := position + p.contentOffset
  let ml := addModification ml (modKey p position) (-(length : Int))
  let data := p.data.take position ++ p.data.drop (position + length)
  (ml, { p with data := data }, [StackCall.removeCall position length])

/-- TCPIn::insertBytes (tcpin.cc lines 315-333): translate the
payload-relative `position` to an absolute offset, record the positive
edit in the packet's modification list, grow the packet and move its tail
up, leaving `length` bytes of gap at the absolute position for the caller
to fill (the gap keeps the bytes previously there). The function returns
without calling `StackElement::insertBytes`: no call is forwarded down
the stack. -/
def insertBytes (ml : List (Nat × Int)) (p : Pkt)
    (position length : Nat) : List (Nat × Int) × Pkt × List StackCall :=
  let position := position + p.contentOffset
  let ml := addModification ml (modKey p position) (length : Int)
  let data := p.data.take (position + length) ++ p.data.drop position
  (ml, { p with data := data }, [])

/-! ## Flow buffer: pattern search (FlowBuffer::searchInFlow)

`Modelled from the spec:` the implementation file `flowbuffer.cc` is not
part of the available sources; only the contract in `flowbuffer.hh` lines
92-99 and §4.3 of the specification describe `searchInFlow`: return `1`
when the pattern occurs in the buffered content, `0` when it does not
occur but could start within the trailing bytes of the buffer (a proper
non-empty prefix of the pattern matches the end of the content), and `-1`
otherwise. The buffered content is modelled as the byte list obtained by
walking the content iterator, and the search scans every start
position. -/

/-- Outcome of matching the pattern against the content from one start
position: the whole pattern matched (`full`), the content ran out while
the pattern was still matching (`tail`), or a byte differed (`miss`). -/
inductive MatchKind where
  | full
  | tail
  | miss
deriving DecidableEq

/-- Match the pattern against a suffix of the content, byte for byte. -/
def matchAt : List Nat → List Nat → MatchKind
  | [], _ => .full
  | _ :: _, [] => .tail
  | p :: ps, c :: cs => if p = c then matchAt ps cs else .miss

/-- Scan the start positions of the content left to right; the first full
match yields `1`; a position where the content runs out mid-match yields
`0` (no later start position can hold the whole pattern); otherwise `-1`. -/
def searchGo (pattern : List Nat) : List Nat → Int
  | [] => -1
  | c :: cs =>
    match matchAt pattern (c :: cs) with
    | .full => 1
    | .tail => 0
    | .miss => searchGo pattern cs

/-- FlowBuffer::searchInFlow on the buffered byte stream. -/
def searchInFlow (pattern content : List Nat) : Int :=
  searchGo pattern content

/-! ## Flow buffer: content iterator (flowbuffer.hh lines 311-371) -/

/-- A packet as seen by the content iterator: its byte buffer and the
content-offset annotation separating headers from payload; the packet
length is the length of the buffer. -/
structure BufPkt where
  contentOffset : Nat
  data : List Nat
deriving DecidableEq

/-- BufPkt length (`entry->length()`). -/
def BufPkt.length (p : BufPkt) : Nat := p.data.length

/-- A FlowBufferContentIter: the chain of buffered packets starting at the
current entry (`entry = none` when the head of the list is absent,
rendering the NULL entry), and the offset in the current packet. -/
structure ContentIter where
  entries : List BufPkt
  offsetInPacket : Nat
deriving DecidableEq

/-- The skipping loop shared by the constructor (flowbuffer.hh lines
311-321) and `operator++` (lines 355-371): while there is an entry and
`contentOffset + offsetInPacket` runs off its end, zero the offset and
move to the next packet. -/
def skipOffEnd : List BufPkt → Nat → ContentIter
  | [], off => ⟨[], off⟩
  | p :: ps, off =>
    if p.contentOffset + off ≥ p.length then skipOffEnd ps 0
    else ⟨p :: ps, off⟩

/-- FlowBufferContentIter::FlowBufferContentIter: start at the given
packet chain and position, then normalize with the skipping loop. -/
def contentIterMk (entries : List BufPkt) (posInFirstPacket : Nat) :
    ContentIter :=
  skipOffEnd entries posInFirstPacket

/-- FlowBufferContentIter::operator++: increment the offset, then
normalize with the skipping loop (the C code asserts a non-NULL entry; on
a NULL entry the iterator is returned unchanged). -/
def contentIterInc (it : ContentIter) : ContentIter :=
  match it.entries with
  | [] => it
  | p :: ps => skipOffEnd (p :: ps) (it.offsetInPacket + 1)

/-- Validity of a content iterator: either the entry is NULL or the
current position designates a byte of the current packet, so that
`operator*` reads a payload byte (`getPacketContent() + offsetInPacket`
is in range). -/
def iterValid (it : ContentIter) : Prop :=
  match it.entries with
  | [] => True
  | p :: _ => p.contentOffset + it.offsetInPacket < p.length

/-! ## Helper lemmas -/

/-- A packet is just-an-ACK exactly when it has no payload and its flag
byte is exactly TH_ACK. -/
theorem isJustAnAck_iff (p : Pkt) :
    isJustAnAck p = true ↔ p.payloadLen = 0 ∧ p.flags = TH_ACK := by
  simp only [isJustAnAck, getPayloadLength]
  split
  · simp only [Bool.false_eq_true, false_iff]
    omega
  · simp only [decide_eq_true_eq]
    omega

/-! ## Claim theorems -/

/-- C1: the claim states that a SYN+ACK packet whose reversed-4-tuple
lookup finds no TcpCommon record is dropped by processPacket with the
failure branch of assignTCPCommon safe. The code has no such failure
branch: after `returnElement->getTCPCommon(flowID)` returns NULL,
`fcb->tcp_common->maintainers[...].initialize(...)` dereferences the NULL
pointer (tcpin.cc lines 420-422). Evaluating the model at a SYN+ACK
packet (flags SYN|ACK = 18) against an empty shared table yields the
NULL-dereference outcome, not a drop. -/
theorem tcpin_synAck_lookup_miss_crashes :
    processPacket false (fun _ => none) none
      ⟨1, 2, 3, 4, 5000, 1001, 18, 0, 40, 0, false, []⟩ =
    ⟨PPOut.crash, [], none, none⟩ := by
  rfl

/-- C2 counterexample: the claim states that a just-an-ACK whose mapped
ACK `newAck` is less than OR EQUAL to this direction's lastAckSent is
dropped. At equality the code's `SEQ_LT(newAckNumber, ...)` test
(tcpin.cc line 168) is false and the packet is forwarded: with empty
modification maps, ack = 100 maps to newAck = 100 = lastAckSent, and the
outcome is not a drop. -/
theorem tcpin_redundant_ack_equal_forwarded :
    isJustAnAck ⟨0, 0, 0, 0, 9, 100, 16, 0, 40, 0, false, []⟩ = true ∧
    mapAckU ({ TcpCommon.fresh with
        m0 := { ByteStreamMaintainer.init with lastAckSent := 100 } }.mnt
        (!false)) 100 = 100 ∧
    ({ TcpCommon.fresh with
        m0 := { ByteStreamMaintainer.init with lastAckSent := 100 } }.mnt
        false).lastAckSent = 100 ∧
    (processPacket false (fun _ => none)
      (some { TcpCommon.fresh with
          m0 := { ByteStreamMaintainer.init with lastAckSent := 100 } })
      ⟨0, 0, 0, 0, 9, 100, 16, 0, 40, 0, false, []⟩).out ≠ PPOut.drop := by
  refine ⟨by decide, by decide, by decide, by decide⟩

/-- C2 (amended): on an established connection whose direction is OPEN, a
just-an-ACK packet whose mapped ACK value `newAck` is STRICTLY LESS
(sequence comparison) than this direction's lastAckSent is dropped by
processPacket, which returns no packet. -/
theorem tcpin_redundant_ack_strict_drop (dir : Bool)
    (table : FlowID → Option TcpCommon) (c : TcpCommon) (p : Pkt)
    (hopen : c.closing dir = ClosingState.OPEN)
    (hjust : isJustAnAck p = true)
    (hlt : seqLt (mapAckU (c.mnt (!dir)) p.ack)
        ((c.mnt dir).lastAckSent) = true) :
    (processPacket dir table (some c) p).out = PPOut.drop := by
  obtain ⟨hp0, hfl⟩ := (isJustAnAck_iff p).1 hjust
  have hsyn : isSyn p = false := by
    simp only [isSyn, checkFlag, hfl, TH_ACK, TH_SYN]
    decide
  have hack : isAck p = true := by
    simp only [isAck, checkFlag, hfl, TH_ACK]
    decide
  have hcc : checkConnectionClosed dir c p = (true, []) := by
    simp [checkConnectionClosed, hopen]
  cases dir <;>
  · simp only [processPacket, hsyn, Bool.false_eq_true, if_false,
      processAfterAssign, hcc]
    split
    · rfl
    · split
      · split
        · rfl
        · next h =>
          rw [Bool.and_eq_true] at h
          exact absurd ⟨hjust, hlt⟩ h
      · next h => exact absurd hack h

/-- C2 witness: a concrete instance of the amended claim; ack 3 maps to
newAck 3, strictly below lastAckSent 5, and the packet is dropped. -/
theorem tcpin_redundant_ack_strict_drop_witness :
    ({ TcpCommon.fresh with
        m0 := { ByteStreamMaintainer.init with lastAckSent := 5 } }.closing
        false = ClosingState.OPEN) ∧
    isJustAnAck ⟨0, 0, 0, 0, 9, 3, 16, 0, 40, 0, false, []⟩ = true ∧
    seqLt (mapAckU ({ TcpCommon.fresh with
        m0 := { ByteStreamMaintainer.init with lastAckSent := 5 } }.mnt
        (!false)) 3)
      (({ TcpCommon.fresh with
          m0 := { ByteStreamMaintainer.init with lastAckSent := 5 } }.mnt
          false).lastAckSent) = true ∧
    (processPacket false (fun _ => none)
      (some { TcpCommon.fresh with
          m0 := { ByteStreamMaintainer.init with lastAckSent := 5 } })
      ⟨0, 0, 0, 0, 9, 3, 16, 0, 40, 0, false, []⟩).out = PPOut.drop :=
  ⟨by decide, by decide, by decide,
    tcpin_redundant_ack_strict_drop false (fun _ => none)
      { TcpCommon.fresh with
          m0 := { ByteStreamMaintainer.init with lastAckSent := 5 } }
      ⟨0, 0, 0, 0, 9, 3, 16, 0, 40, 0, false, []⟩
      (by decide) (by decide) (by decide)⟩

/-- C3 counterexample: the claim states that on a direction whose closing
state is not OPEN an ACK is emitted (before the drop) whenever the packet
carries payload, SYN or FIN. In the two ungraceful states the code emits
no ACK (tcpin.cc line 383 restricts the ACK to the graceful states): a
payload-carrying packet arriving on a BEING_CLOSED_UNGRACEFUL direction
is dropped with no ACK sent. -/
theorem tcpin_ungraceful_close_no_ack :
    (processPacket false (fun _ => none)
      (some { TcpCommon.fresh with
          cs0 := ClosingState.BEING_CLOSED_UNGRACEFUL })
      ⟨0, 0, 0, 0, 1001, 0, 24, 10, 40, 0, false, []⟩).out = PPOut.drop ∧
    (processPacket false (fun _ => none)
      (some { TcpCommon.fresh with
          cs0 := ClosingState.BEING_CLOSED_UNGRACEFUL })
      ⟨0, 0, 0, 0, 1001, 0, 24, 10, 40, 0, false, []⟩).sentAcks = [] := by
  refine ⟨by decide, by decide⟩

/-- C3 (amended): a non-SYN packet arriving on an established connection
whose direction's closing state is not OPEN is dropped by processPacket,
which returns no packet; an ACK (with ackMapped = false) is emitted back
exactly when the closing state is BEING_CLOSED_GRACEFUL or
CLOSED_GRACEFUL and the packet carries a FIN or payload. (A mid-stream
SYN is dropped by the earlier unexpected-SYN check without reaching the
closing check, and in the ungraceful states no ACK is emitted.) -/
theorem tcpin_closed_direction_drop (dir : Bool)
    (table : FlowID → Option TcpCommon) (c : TcpCommon) (p : Pkt)
    (hnotopen : c.closing dir ≠ ClosingState.OPEN)
    (hsyn : isSyn p = false) :
    (processPacket dir table (some c) p).out = PPOut.drop ∧
    (processPacket dir table (some c) p).sentAcks =
      (if (c.closing dir = ClosingState.BEING_CLOSED_GRACEFUL ∨
            c.closing dir = ClosingState.CLOSED_GRACEFUL) ∧
          (isFin p = true ∨ 0 < getPayloadLength p)
       then [ackPacket (c.mnt (!dir)) p false] else []) := by
  by_cases hg : (c.closing dir = ClosingState.BEING_CLOSED_GRACEFUL ∨
      c.closing dir = ClosingState.CLOSED_GRACEFUL)
  · by_cases hack : (isFin p = true ∨ 0 < getPayloadLength p)
    · have hfb : (isFin p || isSyn p || decide (getPayloadLength p > 0)) = true := by
        rcases hack with h | h
        · simp [h]
        · simp [h]
      have hcc : checkConnectionClosed dir c p =
          (false, [ackPacket (c.mnt (!dir)) p false]) := by
        simp only [checkConnectionClosed]
        rw [if_pos hnotopen, if_pos hg, if_pos hfb]
      simp only [processPacket, hsyn, Bool.false_eq_true, if_false,
        processAfterAssign, hcc]
      rw [if_pos ⟨hg, hack⟩]
      exact ⟨trivial, rfl⟩
    · have hfb : (isFin p || isSyn p || decide (getPayloadLength p > 0)) = false := by
        rw [not_or] at hack
        have h1 : isFin p = false := by
          revert hack; cases isFin p <;> simp
        have h2 : getPayloadLength p = 0 := by omega
        simp [h1, h2, hsyn]
      have hcc : checkConnectionClosed dir c p = (false, []) := by
        simp only [checkConnectionClosed]
        rw [if_pos hnotopen, if_pos hg, if_neg (by simp [hfb])]
      simp only [processPacket, hsyn, Bool.false_eq_true, if_false,
        processAfterAssign, hcc]
      rw [if_neg (by tauto)]
      exact ⟨trivial, rfl⟩
  · have hcc : checkConnectionClosed dir c p = (false, []) := by
      simp only [checkConnectionClosed]
      rw [if_pos hnotopen, if_neg hg]
    simp only [processPacket, hsyn, Bool.false_eq_true, if_false,
      processAfterAssign, hcc]
    rw [if_neg (by tauto)]
    exact ⟨trivial, rfl⟩

/-- C3 witness: a concrete instance of the amended claim; a payload
packet on a BEING_CLOSED_GRACEFUL direction is dropped and ACKed. -/
theorem tcpin_closed_direction_drop_witness :
    ({ TcpCommon.fresh with
        cs0 := ClosingState.BEING_CLOSED_GRACEFUL }.closing false ≠
      ClosingState.OPEN) ∧
    isSyn ⟨0, 0, 0, 0, 1001, 0, 24, 10, 40, 0, false, []⟩ = false ∧
    ((processPacket false (fun _ => none)
      (some { TcpCommon.fresh with
          cs0 := ClosingState.BEING_CLOSED_GRACEFUL })
      ⟨0, 0, 0, 0, 1001, 0, 24, 10, 40, 0, false, []⟩).out = PPOut.drop ∧
    (processPacket false (fun _ => none)
      (some { TcpCommon.fresh with
          cs0 := ClosingState.BEING_CLOSED_GRACEFUL })
      ⟨0, 0, 0, 0, 1001, 0, 24, 10, 40, 0, false, []⟩).sentAcks =
      (if ({ TcpCommon.fresh with
              cs0 := ClosingState.BEING_CLOSED_GRACEFUL }.closing false =
            ClosingState.BEING_CLOSED_GRACEFUL ∨
            { TcpCommon.fresh with
              cs0 := ClosingState.BEING_CLOSED_GRACEFUL }.closing false =
            ClosingState.CLOSED_GRACEFUL) ∧
          (isFin ⟨0, 0, 0, 0, 1001, 0, 24, 10, 40, 0, false, []⟩ = true ∨
            0 < getPayloadLength ⟨0, 0, 0, 0, 1001, 0, 24, 10, 40, 0, false, []⟩)
       then [ackPacket ({ TcpCommon.fresh with
              cs0 := ClosingState.BEING_CLOSED_GRACEFUL }.mnt (!false))
              ⟨0, 0, 0, 0, 1001, 0, 24, 10, 40, 0, false, []⟩ false]
       else [])) :=
  ⟨by decide, by decide,
    tcpin_closed_direction_drop false (fun _ => none)
      { TcpCommon.fresh with cs0 := ClosingState.BEING_CLOSED_GRACEFUL }
      ⟨0, 0, 0, 0, 1001, 0, 24, 10, 40, 0, false, []⟩
      (by decide) (by decide)⟩

/-- C4 counterexample: the claim quantifies over every packet on an
established open connection with sequence number strictly below the
opposite direction's lastAckSent and states that the ACK is re-sent. A
SYN packet in that situation is dropped by the unexpected-SYN check
(tcpin.cc line 106) before the lost-ACK check and no ACK is re-sent. -/
theorem tcpin_lost_ack_syn_dropped_without_ack :
    seqLt 1001 1011 = true ∧
    (processPacket false (fun _ => none)
      (some { TcpCommon.fresh with
          m1 := { ByteStreamMaintainer.init with lastAckSent := 1011 } })
      ⟨0, 0, 0, 0, 1001, 0, 2, 10, 40, 0, false, []⟩).out = PPOut.drop ∧
    (processPacket false (fun _ => none)
      (some { TcpCommon.fresh with
          m1 := { ByteStreamMaintainer.init with lastAckSent := 1011 } })
      ⟨0, 0, 0, 0, 1001, 0, 2, 10, 40, 0, false, []⟩).sentAcks = [] := by
  refine ⟨by decide, by decide, by decide⟩

/-- C4 (amended): a NON-SYN packet processed on an established, open
connection whose sequence number is strictly less (sequence comparison)
than the opposite direction's lastAckSent causes processPacket to re-send
the ACK (ackPacket with ackMapped = false) and drop the packet, returning
no packet. -/
theorem tcpin_lost_ack_resend_and_drop (dir : Bool)
    (table : FlowID → Option TcpCommon) (c : TcpCommon) (p : Pkt)
    (hopen : c.closing dir = ClosingState.OPEN)
    (hsyn : isSyn p = false)
    (hlost : seqLt p.seq ((c.mnt (!dir)).lastAckSent) = true) :
    (processPacket dir table (some c) p).out = PPOut.drop ∧
    (processPacket dir table (some c) p).sentAcks =
      [ackPacket (c.mnt (!dir)) p false] := by
  have hcc : checkConnectionClosed dir c p = (true, []) := by
    simp [checkConnectionClosed, hopen]
  have hsyn' : isSyn { p with contentOffset := p.payloadOffset } = isSyn p := rfl
  simp only [processPacket, hsyn, Bool.false_eq_true, if_false,
    processAfterAssign, hcc]
  simp only [hsyn', hsyn, Bool.not_false, Bool.true_and]
  rw [show ({ p with contentOffset := p.payloadOffset } : Pkt).seq = p.seq
      from rfl, hlost]
  simp only [if_true]
  exact ⟨trivial, rfl⟩

/-- C4 witness: the S4 scenario; a data packet retransmitted at seq 1001
after lastAckSent 1011 is ACKed again and dropped. -/
theorem tcpin_lost_ack_resend_and_drop_witness :
    ({ TcpCommon.fresh with
        m1 := { ByteStreamMaintainer.init with lastAckSent := 1011 } }.closing
        false = ClosingState.OPEN) ∧
    isSyn ⟨0, 0, 0, 0, 1001, 0, 24, 10, 40, 0, false, []⟩ = false ∧
    seqLt 1001 (({ TcpCommon.fresh with
        m1 := { ByteStreamMaintainer.init with lastAckSent := 1011 } }.mnt
        (!false)).lastAckSent) = true ∧
    ((processPacket false (fun _ => none)
      (some { TcpCommon.fresh with
          m1 := { ByteStreamMaintainer.init with lastAckSent := 1011 } })
      ⟨0, 0, 0, 0, 1001, 0, 24, 10, 40, 0, false, []⟩).out = PPOut.drop ∧
    (processPacket false (fun _ => none)
      (some { TcpCommon.fresh with
          m1 := { ByteStreamMaintainer.init with lastAckSent := 1011 } })
      ⟨0, 0, 0, 0, 1001, 0, 24, 10, 40, 0, false, []⟩).sentAcks =
      [ackPacket ({ TcpCommon.fresh with
          m1 := { ByteStreamMaintainer.init with lastAckSent := 1011 } }.mnt
          (!false)) ⟨0, 0, 0, 0, 1001, 0, 24, 10, 40, 0, false, []⟩ false]) :=
  ⟨by decide, by decide, by decide,
    tcpin_lost_ack_resend_and_drop false (fun _ => none)
      { TcpCommon.fresh with
          m1 := { ByteStreamMaintainer.init with lastAckSent := 1011 } }
      ⟨0, 0, 0, 0, 1001, 0, 24, 10, 40, 0, false, []⟩
      (by decide) (by decide) (by decide)⟩

/-- C5 counterexample: the claim states that every byte-editing hook
forwards through the stack, in particular that insertBytes calls
StackElement::insertBytes after applying the local edit. The body of
TCPIn::insertBytes (tcpin.cc lines 315-333) contains no such call: the
trace of stack calls it produces is empty. -/
theorem tcpin_insertBytes_not_forwarded :
    (insertBytes [] ⟨0, 0, 0, 0, 1001, 0, 24, 9, 40, 54, false,
        List.replicate 63 65⟩ 3 4).2.2 = ([] : List StackCall) := by
  rfl

/-- C5 (amended): TCPIn::removeBytes applies the local edit (recording
`(seq + absolutePosition - tcpOffset, -length)` in the modification list
and shrinking the packet) and then forwards the call through
StackElement::removeBytes with the absolute position; TCPIn::insertBytes
applies the local edit (recording `+length` and growing the packet) but
returns without forwarding any call down the stack. -/
theorem tcpin_byte_hooks_stack_behaviour (ml : List (Nat × Int)) (p : Pkt)
    (position length : Nat) :
    (removeBytes ml p position length).2.2 =
      [StackCall.removeCall (position + p.contentOffset) length] ∧
    (removeBytes ml p position length).1 =
      ml ++ [(modKey p (position + p.contentOffset), -(length : Int))] ∧
    (insertBytes ml p position length).2.2 = [] ∧
    (insertBytes ml p position length).1 =
      ml ++ [(modKey p (position + p.contentOffset), (length : Int))] :=
  ⟨rfl, rfl, rfl, rfl⟩

/-- C6 counterexample: with the single recorded deletion `(1007, -3)` (the
S2 scenario of the specification) and s = 1004 — at or before the last
edit — the round trip fails: `mapSeq` flattens the region in front of the
deletion point, `mapAck(mapSeq(1004)) = mapAck(1004) = 1007 ≠ 1004`. -/
theorem maintainer_mapAck_mapSeq_roundtrip_fails_on_deletion :
    (∃ kv ∈ [((1007 : Nat), (-3 : Int))], 1004 ≤ kv.1) ∧
    mapAckZ [(1007, -3)] (mapSeqZ [(1007, -3)] 1004) ≠ 1004 := by
  refine ⟨by decide, by decide⟩

/-- C6 (amended): for any modification set and any original sequence
number s at or before the last edit such that every edited key strictly
greater than s maps strictly above `mapSeq(s)` (in particular whenever
`mapSeq` is strictly increasing past s, as with insertion-only edits),
the round trip holds: `mapAck(mapSeq(s)) = s`. -/
theorem maintainer_mapAck_mapSeq_roundtrip (m : List (Nat × Int)) (s : Nat)
    (hlast : ∃ kv ∈ m, s ≤ kv.1)
    (hmono : ∀ kv ∈ m, s < kv.1 → mapSeqZ m s < mapSeqZ m kv.1) :
    mapAckZ m (mapSeqZ m s) = s := by
  by_cases hex : ∃ kv ∈ m, kv.1 ≤ s
  · obtain ⟨kv₀, hkv₀, hkv₀le⟩ := hex
    have hKne : (m.map Prod.fst).filter (fun k => decide (k ≤ s)) ≠ [] := by
      intro hnil
      have := List.filter_eq_nil_iff.1 hnil kv₀.1
        (List.mem_map.2 ⟨kv₀, hkv₀, rfl⟩)
      simp only [decide_eq_true_eq] at this
      omega
    obtain ⟨k, hkmax⟩ :
        ∃ k, ((m.map Prod.fst).filter (fun x => decide (x ≤ s))).max? =
          some k := by
      cases hmq : ((m.map Prod.fst).filter (fun x => decide (x ≤ s))).max? with
      | none => exact absurd (List.max?_eq_none_iff.1 hmq) hKne
      | some k => exact ⟨k, rfl⟩
    obtain ⟨hkmem, hkub⟩ := List.max?_eq_some_iff'.1 hkmax
    obtain ⟨hkmap, hkles⟩ := List.mem_filter.1 hkmem
    simp only [decide_eq_true_eq] at hkles
    have hmaxi : ∀ b ∈ m.map Prod.fst, b ≤ s → b ≤ k := by
      intro b hb hbs
      exact hkub b (List.mem_filter.2 ⟨hb, by simpa using hbs⟩)
    have hfeq : m.filter (fun kv => decide (kv.1 ≤ k)) =
        m.filter (fun kv => decide (kv.1 ≤ s)) := by
      apply List.filter_congr
      intro kv hkv
      rw [decide_eq_decide]
      constructor
      · intro h; omega
      · intro h; exact hmaxi kv.1 (List.mem_map.2 ⟨kv, hkv, rfl⟩) h
    have hseqk : mapSeqZ m k =
        (k : Int) +
          ((m.filter (fun kv => decide (kv.1 ≤ s))).map Prod.snd).sum := by
      rw [mapSeqZ, hfeq]
    have hseqs : mapSeqZ m s =
        (s : Int) +
          ((m.filter (fun kv => decide (kv.1 ≤ s))).map Prod.snd).sum := rfl
    have hin : k ∈ ackKeys m (mapSeqZ m s) := by
      refine List.mem_filter.2 ⟨hkmap, ?_⟩
      simp only [decide_eq_true_eq]
      rw [hseqk, hseqs]
      omega
    have hub : ∀ b ∈ ackKeys m (mapSeqZ m s), b ≤ k := by
      intro b hb
      obtain ⟨hbm, hble⟩ := List.mem_filter.1 hb
      simp only [decide_eq_true_eq] at hble
      by_cases hbs : b ≤ s
      · exact hmaxi b hbm hbs
      · obtain ⟨kv, hkv, hkvb⟩ := List.mem_map.1 hbm
        have hlt := hmono kv hkv (by omega)
        rw [hkvb] at hlt
        omega
    have hmax : (ackKeys m (mapSeqZ m s)).max? = some k :=
      List.max?_eq_some_iff'.2 ⟨hin, hub⟩
    simp only [mapAckZ, hmax]
    rw [hseqk, hseqs]
    omega
  · have hall : ∀ kv ∈ m, s < kv.1 := by
      intro kv hkv
      by_contra hh
      exact hex ⟨kv, hkv, by omega⟩
    have hfe : m.filter (fun kv => decide (kv.1 ≤ s)) = [] := by
      apply List.filter_eq_nil_iff.2
      intro kv hkv
      have := hall kv hkv
      simp only [decide_eq_true_eq]
      omega
    have hseq : mapSeqZ m s = s := by
      rw [mapSeqZ, hfe]
      simp
    have hkeys : ackKeys m ((s : Nat) : Int) = [] := by
      apply List.filter_eq_nil_iff.2
      intro x hx
      obtain ⟨kv, hkv, hkvx⟩ := List.mem_map.1 hx
      have hlt := hmono kv hkv (hall kv hkv)
      rw [hseq] at hlt
      rw [hkvx] at hlt
      simp only [decide_eq_true_eq]
      omega
    rw [hseq]
    simp [mapAckZ, hkeys]

/-- C6 witness: with the single insertion `(10, +5)` and s = 7 the
hypotheses hold and the round trip gives back 7. -/
theorem maintainer_mapAck_mapSeq_roundtrip_witness :
    (∃ kv ∈ [((10 : Nat), (5 : Int))], 7 ≤ kv.1) ∧
    (∀ kv ∈ [((10 : Nat), (5 : Int))], 7 < kv.1 →
      mapSeqZ [(10, 5)] 7 < mapSeqZ [(10, 5)] kv.1) ∧
    mapAckZ [(10, 5)] (mapSeqZ [(10, 5)] 7) = 7 :=
  ⟨by decide, by decide,
    maintainer_mapAck_mapSeq_roundtrip [(10, 5)] 7 (by decide) (by decide)⟩

/-- C7: closeConnection sets this direction's closing state to
BEING_CLOSED_GRACEFUL (graceful) or BEING_CLOSED_UNGRACEFUL (otherwise);
when bothSides holds it sets the opposite direction to CLOSED_GRACEFUL /
CLOSED_UNGRACEFUL and sends exactly one closing packet (FIN flag when
graceful, RST otherwise) toward the opposite endpoint, whose seq is the
opposite maintainer's mapSeq of the packet's ACK number and whose ack is
the packet's sequence number plus its payload length, plus one when the
packet (whose flag byte has just been OR-ed with the closing flag) has
the FIN or SYN flag; when bothSides is false no closing packet is sent
and the opposite state is untouched. -/
theorem tcpin_closeConnection_spec (dir : Bool) (c : TcpCommon) (p : Pkt)
    (graceful bothSides : Bool) :
    ((closeConnection dir c p graceful bothSides).1.closing dir =
      (if graceful then ClosingState.BEING_CLOSED_GRACEFUL
       else ClosingState.BEING_CLOSED_UNGRACEFUL)) ∧
    ((closeConnection dir c p graceful bothSides).1.closing (!dir) =
      (if bothSides then
        (if graceful then ClosingState.CLOSED_GRACEFUL
         else ClosingState.CLOSED_UNGRACEFUL)
       else c.closing (!dir))) ∧
    ((closeConnection dir c p graceful bothSides).2.1.flags =
      p.flags ||| (if graceful then TH_FIN else TH_RST)) ∧
    ((closeConnection dir c p graceful bothSides).2.2 =
      (if bothSides then
        [⟨p.daddr, p.saddr, p.dport, p.sport,
          mapSeqU (c.mnt (!dir)) p.ack,
          (p.seq + p.payloadLen +
            (if isFin (closeConnection dir c p graceful bothSides).2.1 ||
                isSyn (closeConnection dir c p graceful bothSides).2.1
             then 1 else 0)) % u32,
          if graceful then TH_FIN else TH_RST⟩]
       else [])) := by
  cases dir <;> cases graceful <;> cases bothSides <;>
    refine ⟨rfl, rfl, rfl, ?_⟩ <;>
    first
      | rfl
      | (simp only [closeConnection, TcpCommon.setClosing, TcpCommon.mnt,
          getPayloadLength, Bool.not_false, Bool.not_true, if_true, if_false,
          List.cons.injEq, ClosingPkt.mk.injEq, and_true, true_and]
         split_ifs <;> simp [Nat.mod_add_mod])

/-- C8: ackPacket crafts an ACK whose source address and port are the
packet's destination address and port and vice versa, whose sequence
number is the opposite maintainer's mapSeq of the packet's ACK number
when ackMapped holds and the packet's ACK number unchanged otherwise,
and whose ack number is the packet's sequence number plus its payload
length, plus one when the packet has the FIN or SYN flag (equivalently,
getNextSequenceNumber of the packet). -/
theorem tcpin_ackPacket_spec (m : ByteStreamMaintainer) (p : Pkt)
    (ackMapped : Bool) :
    (ackPacket m p ackMapped).saddr = p.daddr ∧
    (ackPacket m p ackMapped).daddr = p.saddr ∧
    (ackPacket m p ackMapped).sport = p.dport ∧
    (ackPacket m p ackMapped).dport = p.sport ∧
    (ackPacket m p ackMapped).seq =
      (if ackMapped then mapSeqU m p.ack else p.ack) ∧
    (ackPacket m p ackMapped).ack = getNextSequenceNumber p ∧
    (ackPacket m p ackMapped).ack =
      (p.seq + p.payloadLen + (if isFin p || isSyn p then 1 else 0)) % u32 := by
  refine ⟨rfl, rfl, rfl, rfl, rfl, rfl, ?_⟩
  simp only [ackPacket, getPayloadLength]
  split <;> simp [Nat.mod_add_mod]

/-- Helper: matchAt reports a full match exactly when the pattern is a
prefix of the content suffix it was matched against. -/
theorem matchAt_eq_full (p u : List Nat) :
    matchAt p u = MatchKind.full ↔ p <+: u := by
  induction p generalizing u with
  | nil =>
    simp only [matchAt, true_iff]
    exact List.nil_prefix
  | cons x xs ih =>
    cases u with
    | nil =>
      show MatchKind.tail = MatchKind.full ↔ x :: xs <+: []
      exact iff_of_false (by decide)
        (fun hh => by have := hh.length_le; simp at this)
    | cons y ys =>
      simp only [matchAt, List.cons_prefix_cons]
      split
      · next heq => rw [ih]; simp [heq]
      · next hne => exact iff_of_false (by decide) (fun h => absurd h.1 hne)

/-- Helper: matchAt reports a truncated match exactly when the content
suffix it was matched against is a proper prefix of the pattern. -/
theorem matchAt_eq_tail (p u : List Nat) :
    matchAt p u = MatchKind.tail ↔ u.length < p.length ∧ u <+: p := by
  induction p generalizing u with
  | nil =>
    show MatchKind.full = MatchKind.tail ↔ u.length < List.length [] ∧ u <+: []
    exact iff_of_false (by decide) (fun hh => by have := hh.1; simp at this)
  | cons x xs ih =>
    cases u with
    | nil =>
      simp only [matchAt, List.length_nil, List.length_cons, true_iff]
      exact ⟨Nat.succ_pos _, List.nil_prefix⟩
    | cons y ys =>
      simp only [matchAt, List.length_cons, List.cons_prefix_cons]
      split
      · next heq =>
        rw [ih]
        constructor
        · rintro ⟨h1, h2⟩; exact ⟨Nat.succ_lt_succ h1, heq.symm ▸ ⟨rfl, h2⟩⟩
        · rintro ⟨h1, _, h2⟩; exact ⟨Nat.lt_of_succ_lt_succ h1, h2⟩
      · next hne =>
        exact iff_of_false (by decide) (fun h => absurd h.2.1.symm hne)

/-- Helper: the scan returns 1 exactly when the pattern occurs inside the
content. -/
theorem searchGo_eq_one (pattern : List Nat) (hp : pattern ≠ [])
    (content : List Nat) :
    searchGo pattern content = 1 ↔ pattern <:+: content := by
  induction content with
  | nil =>
    simp only [searchGo, List.infix_nil]
    constructor
    · intro h; omega
    · intro h; exact absurd h hp
  | cons c cs ih =>
    rw [searchGo]
    split
    · next h =>
      simp only [true_iff]
      exact List.IsPrefix.isInfix ((matchAt_eq_full _ _).1 h)
    · next h =>
      obtain ⟨hlen, -⟩ := (matchAt_eq_tail _ _).1 h
      constructor
      · intro h0; omega
      · intro hinf
        exact absurd (hinf.length_le) (by omega)
    · next h =>
      rw [ih, List.infix_cons_iff]
      constructor
      · intro hi; exact Or.inr hi
      · rintro (hpre | hi)
        · rw [← matchAt_eq_full] at hpre
          rw [hpre] at h
          simp at h
        · exact hi

/-- Helper: the scan returns 0 exactly when the pattern does not occur
but a non-empty proper prefix of it is a suffix of the content. -/
theorem searchGo_eq_zero (pattern : List Nat) (content : List Nat) :
    searchGo pattern content = 0 ↔
      ¬ pattern <:+: content ∧
      ∃ u, u ≠ [] ∧ u <:+ content ∧ u.length < pattern.length ∧
        u <+: pattern := by
  induction content with
  | nil =>
    simp only [searchGo, List.infix_nil, List.suffix_nil]
    constructor
    · intro h; omega
    · rintro ⟨-, u, hne, rfl, -⟩; exact absurd rfl hne
  | cons c cs ih =>
    rw [searchGo]
    split
    · next h =>
      have hinf := List.IsPrefix.isInfix ((matchAt_eq_full _ _).1 h)
      constructor
      · intro h0; omega
      · rintro ⟨hni, -⟩; exact absurd hinf hni
    · next h =>
      obtain ⟨hlen, hpre⟩ := (matchAt_eq_tail _ _).1 h
      simp only [true_iff]
      refine ⟨fun hinf => absurd hinf.length_le (by omega), ?_⟩
      exact ⟨c :: cs, List.cons_ne_nil c cs, List.suffix_refl _, hlen, hpre⟩
    · next h =>
      rw [ih, List.infix_cons_iff]
      constructor
      · rintro ⟨hni, u, hne, hsuf, hlen, hpre⟩
        refine ⟨?_, u, hne, (List.suffix_cons_iff.2 (Or.inr hsuf)), hlen, hpre⟩
        rintro (hfull | hi)
        · rw [← matchAt_eq_full] at hfull
          rw [hfull] at h
          simp at h
        · exact absurd hi hni
      · rintro ⟨hni, u, hne, hsuf, hlen, hpre⟩
        rcases List.suffix_cons_iff.1 hsuf with rfl | hsuf'
        · exact absurd ((matchAt_eq_tail _ _).2 ⟨hlen, hpre⟩)
            (by rw [h]; decide)
        · exact ⟨fun hi => hni (Or.inr hi), u, hne, hsuf', hlen, hpre⟩

/-- Helper: the scan only ever returns 1, 0 or -1. -/
theorem searchGo_mem_range (pattern content : List Nat) :
    searchGo pattern content = 1 ∨ searchGo pattern content = 0 ∨
      searchGo pattern content = -1 := by
  induction content with
  | nil => simp [searchGo]
  | cons c cs ih =>
    rw [searchGo]
    split
    · exact Or.inl rfl
    · exact Or.inr (Or.inl rfl)
    · exact ih

/-- C9: for every buffered flow content and non-empty pattern,
searchInFlow returns 1 iff the pattern appears wholly inside the buffered
content; 0 iff the pattern is absent but some non-empty proper prefix of
it matches the suffix of the buffered content; and -1 otherwise. -/
theorem flowbuffer_searchInFlow_ternary (pattern content : List Nat)
    (hp : pattern ≠ []) :
    (searchInFlow pattern content = 1 ↔ pattern <:+: content) ∧
    (searchInFlow pattern content = 0 ↔
      ¬ pattern <:+: content ∧
      ∃ k, 0 < k ∧ k < pattern.length ∧ pattern.take k <:+ content) ∧
    (searchInFlow pattern content = -1 ↔
      ¬ pattern <:+: content ∧
      ¬ ∃ k, 0 < k ∧ k < pattern.length ∧ pattern.take k <:+ content) := by
  have hconv : (∃ u, u ≠ [] ∧ u <:+ content ∧ u.length < pattern.length ∧
      u <+: pattern) ↔
      (∃ k, 0 < k ∧ k < pattern.length ∧ pattern.take k <:+ content) := by
    constructor
    · rintro ⟨u, hne, hsuf, hlen, hpre⟩
      refine ⟨u.length, List.length_pos.2 hne, hlen, ?_⟩
      rw [List.prefix_iff_eq_take] at hpre
      rw [← hpre]
      exact hsuf
    · rintro ⟨k, hk0, hk, hsuf⟩
      refine ⟨pattern.take k, ?_, hsuf, ?_, List.take_prefix k pattern⟩
      · have : (pattern.take k).length = k := by
          rw [List.length_take]; omega
        intro hnil
        rw [hnil] at this
        simp at this
        omega
      · rw [List.length_take]; omega
  have h1 := searchGo_eq_one pattern hp content
  have h0 := searchGo_eq_zero pattern content
  have hr := searchGo_mem_range pattern content
  have hS : searchInFlow pattern content = searchGo pattern content := rfl
  refine ⟨h1, by rw [hS, h0, hconv], ?_⟩
  constructor
  · intro hm1
    rw [hS] at hm1
    have hn1 : ¬ pattern <:+: content := fun hi => by
      have := h1.2 hi; omega
    have hn0 : ¬ ∃ k, 0 < k ∧ k < pattern.length ∧
        pattern.take k <:+ content := fun hex => by
      have := h0.2 ⟨hn1, hconv.2 hex⟩; omega
    exact ⟨hn1, hn0⟩
  · rintro ⟨hni, hnex⟩
    rcases hr with h | h | h
    · rw [h1] at h; exact absurd h hni
    · rw [h0] at h; exact absurd (hconv.1 h.2) hnex
    · rw [hS]; exact h

/-- C9 witness: pattern [1, 2] against content [0, 1]: the pattern is
absent, its proper prefix [1] is the suffix of the content, and the
search returns 0. -/
theorem flowbuffer_searchInFlow_ternary_witness :
    ([1, 2] : List Nat) ≠ [] ∧
    ((searchInFlow [1, 2] [0, 1] = 1 ↔ ([1, 2] : List Nat) <:+: [0, 1]) ∧
    (searchInFlow [1, 2] [0, 1] = 0 ↔
      ¬ ([1, 2] : List Nat) <:+: [0, 1] ∧
      ∃ k, 0 < k ∧ k < ([1, 2] : List Nat).length ∧
        ([1, 2] : List Nat).take k <:+ [0, 1]) ∧
    (searchInFlow [1, 2] [0, 1] = -1 ↔
      ¬ ([1, 2] : List Nat) <:+: [0, 1] ∧
      ¬ ∃ k, 0 < k ∧ k < ([1, 2] : List Nat).length ∧
        ([1, 2] : List Nat).take k <:+ [0, 1])) :=
  ⟨by decide, flowbuffer_searchInFlow_ternary [1, 2] [0, 1] (by decide)⟩

/-- Helper: the skipping loop always lands on NULL or on a packet with a
payload byte left at the current offset. -/
theorem skipOffEnd_valid (ps : List BufPkt) (off : Nat) :
    iterValid (skipOffEnd ps off) := by
  induction ps generalizing off with
  | nil => trivial
  | cons p ps ih =>
    simp only [skipOffEnd]
    split
    · exact ih 0
    · next h => exact Nat.lt_of_not_le h

/-- C10: after construction and after every increment, a content iterator
either has a NULL current entry or satisfies
`contentOffset + offsetInPacket < length` for its current packet, so
zero-payload packets are never the current entry and dereferencing a
non-NULL iterator reads a payload byte of some buffered packet. -/
theorem flowbuffer_content_iter_valid :
    (∀ (entries : List BufPkt) (posInFirstPacket : Nat),
      iterValid (contentIterMk entries posInFirstPacket)) ∧
    (∀ it : ContentIter, iterValid (contentIterInc it)) := by
  constructor
  · exact fun entries pos => skipOffEnd_valid entries pos
  · intro it
    obtain ⟨entries, off⟩ := it
    cases entries with
    | nil => trivial
    | cons p ps => exact skipOffEnd_valid (p :: ps) (off + 1)
